import Mathlib

/-!
A verification development for the people-parse repository's profile
normalization layer (`src/api/coresignal.py`).

The Python code is shallowly embedded: vendor JSON values become the `Json`
inductive type, Python `datetime` dates become the `Date` structure
(year, month, day as naturals), Python dictionaries become association
lists, and code that can raise an exception (attribute errors on wrong-typed
vendor data, HTTP errors) returns `Except`.  Network I/O is abstracted as
oracle functions from request to response, and functions that issue
requests also return the trace of requests they made, so retry policies can
be stated.
-/

namespace PeopleParse

/-- A JSON value as received from the vendor; also used for Python values
flowing through the extraction code (Python dicts are association lists,
`Json.null` doubles as Python `None`). -/
inductive Json where
  | null : Json
  | bool : Bool → Json
  | num : Int → Json
  | str : String → Json
  | arr : List Json → Json
  | obj : List (String × Json) → Json

/-- Python truthiness of a value (`bool(x)`): `None`, `False`, `0`, `""`,
`[]` and `{}` are falsy, everything else truthy. -/
def truthy : Json → Bool
  | .null => false
  | .bool b => b
  | .num n => decide (n ≠ 0)
  | .str s => decide (s ≠ "")
  | .arr [] => false
  | .arr (_ :: _) => true
  | .obj [] => false
  | .obj (_ :: _) => true

/-- Python `a or b`: `a` when truthy, else `b`. -/
def jor (a b : Json) : Json := if truthy a then a else b

/-- `d.get(k)` on a dict known to be a dict: the stored value, or `None`
(here `Json.null`) when the key is absent. -/
def dictGet (fs : List (String × Json)) (k : String) : Json :=
  match fs.find? (fun kv => decide (kv.1 = k)) with
  | some kv => kv.2
  | none => Json.null

/-- `d.get(k, dflt)` on a dict known to be a dict. -/
def dictGetD (fs : List (String × Json)) (k : String) (dflt : Json) : Json :=
  match fs.find? (fun kv => decide (kv.1 = k)) with
  | some kv => kv.2
  | none => dflt

/-- `x.get(k, dflt)` on an arbitrary Python value: an `AttributeError` when
the value is not a dict. -/
def pyGetD (j : Json) (k : String) (dflt : Json) : Except String Json :=
  match j with
  | .obj fs => .ok (dictGetD fs k dflt)
  | _ => .error "AttributeError: object has no attribute get"

/-- Characters Python's `str.strip()` removes by default. -/
def isPySpace (c : Char) : Bool :=
  c = ' ' || c = '\t' || c = '\n' || c = '\r' || c = '\x0b' || c = '\x0c'

/-- `str.strip()` on the character list of a string. -/
def trimChars (l : List Char) : List Char :=
  ((l.dropWhile isPySpace).reverse.dropWhile isPySpace).reverse

/-- `str.strip()`. -/
def pyStrip (s : String) : String := String.mk (trimChars s.data)

/-- ASCII lowering of one character, as `str.lower()` acts on the ASCII
range (the only range the vendor data in the claims exercises). -/
def lowerChar (c : Char) : Char :=
  if 65 ≤ c.toNat ∧ c.toNat ≤ 90 then Char.ofNat (c.toNat + 32) else c

/-- `str.lower()` (ASCII range). -/
def pyLower (s : String) : String := String.mk (s.data.map lowerChar)

/-- A calendar date, the embedding of a Python `datetime` at day precision
(the code never uses time-of-day). -/
structure Date where
  year : Nat
  month : Nat
  day : Nat
deriving DecidableEq

/-- `datetime` comparison `a < b` (lexicographic on year, month, day). -/
def dateLt (a b : Date) : Bool :=
  decide (a.year < b.year ∨ (a.year = b.year ∧
    (a.month < b.month ∨ (a.month = b.month ∧ a.day < b.day))))

/-- `datetime` comparison `a ≤ b` (lexicographic on year, month, day). -/
def dateLe (a b : Date) : Bool :=
  decide (a.year < b.year ∨ (a.year = b.year ∧
    (a.month < b.month ∨ (a.month = b.month ∧ a.day ≤ b.day))))

/-! ## Date parsing (`_parse_date`, lines 389-414)

`datetime.strptime` is embedded format by format: `%Y` matches exactly four
digits, `%m` one or two digits valued 1-12, `%d` one or two digits valued
1-31; the `datetime` constructor then rejects day numbers past the month's
length and the year 0.  `datetime.fromisoformat` is modelled on its
zero-padded `YYYY-MM-DD` date part with an optional `HH:MM[:SS]` time part
after a single separator character; fractional seconds and timezone
suffixes, which no claim exercises, are not modelled. -/

/-- Split a character list on a separator character (like `str.split`). -/
def splitOnC (c : Char) : List Char → List (List Char)
  | [] => [[]]
  | x :: xs =>
    let r := splitOnC c xs
    if x = c then [] :: r
    else
      match r with
      | h :: t => (x :: h) :: t
      | [] => [[x]]

def isDigitC (c : Char) : Bool := 48 ≤ c.toNat && c.toNat ≤ 57

def digitVal (c : Char) : Nat := c.toNat - 48

/-- The numeric value of an all-digit, non-empty character list; `none`
otherwise. -/
def digitsVal : List Char → Option Nat
  | [] => none
  | l => if l.all isDigitC then some (l.foldl (fun a c => a * 10 + digitVal c) 0) else none

/-- Whether `y` is a leap year (proleptic Gregorian, as `datetime` uses). -/
def isLeap (y : Nat) : Bool := y % 4 = 0 && (y % 100 ≠ 0 || y % 400 = 0)

/-- Days in month `m` of year `y` (the `datetime` constructor's bound). -/
def daysInMonth (y m : Nat) : Nat :=
  if m = 2 then (if isLeap y then 29 else 28)
  else if m = 4 ∨ m = 6 ∨ m = 9 ∨ m = 11 then 30
  else 31

/-- The `%Y` directive: exactly four digits; the `datetime` constructor then
rejects year 0. -/
def parseYear4 (l : List Char) : Option Nat :=
  if l.length = 4 then
    match digitsVal l with
    | some y => if 1 ≤ y then some y else none
    | none => none
  else none

/-- The `%m` directive: one or two digits valued 1-12. -/
def parseMonthField (l : List Char) : Option Nat :=
  if l.length = 1 ∨ l.length = 2 then
    match digitsVal l with
    | some m => if 1 ≤ m ∧ m ≤ 12 then some m else none
    | none => none
  else none

/-- The `%d` directive: one or two digits valued 1-31. -/
def parseDayField (l : List Char) : Option Nat :=
  if l.length = 1 ∨ l.length = 2 then
    match digitsVal l with
    | some d => if 1 ≤ d ∧ d ≤ 31 then some d else none
    | none => none
  else none

/-- `datetime.strptime(s, "%Y-%m-%d")`: full match, then the constructor's
calendar check on the day. -/
def parseFmtYMD (l : List Char) : Option Date :=
  match splitOnC '-' l with
  | [ys, ms, ds] =>
    match parseYear4 ys, parseMonthField ms, parseDayField ds with
    | some y, some m, some d => if d ≤ daysInMonth y m then some ⟨y, m, d⟩ else none
    | _, _, _ => none
  | _ => none

/-- `datetime.strptime(s, "%Y-%m")`: day defaults to 1. -/
def parseFmtYM (l : List Char) : Option Date :=
  match splitOnC '-' l with
  | [ys, ms] =>
    match parseYear4 ys, parseMonthField ms with
    | some y, some m => some ⟨y, m, 1⟩
    | _, _ => none
  | _ => none

/-- `datetime.strptime(s, "%Y")`: month and day default to 1. -/
def parseFmtY (l : List Char) : Option Date :=
  match parseYear4 l with
  | some y => some ⟨y, 1, 1⟩
  | none => none

/-- A two-digit field bounded by `hi`, for the time part of ISO strings. -/
def twoDigitLe (hi : Nat) (a b : Char) : Bool :=
  isDigitC a && isDigitC b && decide (digitVal a * 10 + digitVal b ≤ hi)

/-- A valid `HH:MM[:SS]` time-of-day character list. -/
def validTimeChars : List Char → Bool
  | [h1, h2, ':', m1, m2] => twoDigitLe 23 h1 h2 && twoDigitLe 59 m1 m2
  | [h1, h2, ':', m1, m2, ':', s1, s2] =>
    twoDigitLe 23 h1 h2 && twoDigitLe 59 m1 m2 && twoDigitLe 59 s1 s2
  | _ => false

/-- `datetime.fromisoformat` restricted to what the repository can feed it: a
zero-padded `YYYY-MM-DD` date part, optionally followed by one separator
character and an `HH:MM[:SS]` time part. -/
def pyFromIso (l : List Char) : Option Date :=
  match l with
  | y1 :: y2 :: y3 :: y4 :: '-' :: m1 :: m2 :: '-' :: d1 :: d2 :: rest =>
    match parseYear4 [y1, y2, y3, y4], parseMonthField [m1, m2], parseDayField [d1, d2] with
    | some y, some m, some d =>
      if d ≤ daysInMonth y m then
        match rest with
        | [] => some ⟨y, m, d⟩
        | _ :: timeRest => if validTimeChars timeRest then some ⟨y, m, d⟩ else none
      else none
    | _, _, _ => none
  | _ => none

/-- Remove one trailing `Z` when present (`clean_value.endswith("Z")` then
`clean_value[:-1]`). -/
def stripZChars (l : List Char) : List Char :=
  match l.reverse with
  | 'Z' :: rest => rest.reverse
  | _ => l

/-- The cleaned character list `_parse_date` feeds the format attempts:
`date_value.strip()` with one trailing `Z` removed. -/
def cleanDate (s : String) : List Char := stripZChars (trimChars s.data)

/-- `_parse_date` (lines 389-414): falsy values parse to nothing, strings
are stripped, a trailing `Z` removed, then the formats `%Y-%m-%d`, `%Y-%m`,
`%Y` are tried in order with `fromisoformat` as the final fallback; truthy
non-string values parse to nothing. -/
def «_parse_date» (v : Json) : Option Date :=
  if truthy v then
    match v with
    | .str s =>
      let clean := cleanDate s
      match parseFmtYMD clean with
      | some d => some d
      | none =>
        match parseFmtYM clean with
        | some d => some d
        | none =>
          match parseFmtY clean with
          | some d => some d
          | none => pyFromIso clean
    | _ => none
  else none

/-! ## Experience timeline aggregation (`_compute_experience_months`, lines 290-320)

The Python loop walks month-by-month from the start's month to the end's
month inclusive, inserting each `(year, month)` pair into a set, and returns
the set's size.  Walking from `(y, m)` with carry at month 12 is exactly
stepping the index `y * 12 + (m - 1)` by one, so the walked set is the image
of the index interval under `idxToYM`. -/

/-- The month index of a date: `year * 12 + (month - 1)`; stepping it by one
is the loop's month increment with year carry. -/
def monthIdx (d : Date) : Nat := d.year * 12 + (d.month - 1)

/-- The `(year, month)` pair of a month index. -/
def idxToYM (n : Nat) : Nat × Nat := (n / 12, n % 12 + 1)

/-- The `(year, month)` pairs the loop inserts for one span: every month
from the start's month to the end's month inclusive. -/
def monthsBetween (s e : Date) : Finset (Nat × Nat) :=
  (Finset.Icc (monthIdx s) (monthIdx e)).image idxToYM

/-- The months one experience entry contributes: none when the entry is not
a dict, its `date_from` does not parse, or its end (parsed `date_to`, else
the current time) is before its start. -/
def entryMonths (now : Date) (exp : Json) : Finset (Nat × Nat) :=
  match exp with
  | .obj fs =>
    match «_parse_date» (dictGet fs "date_from") with
    | none => ∅
    | some s =>
      let e := («_parse_date» (dictGet fs "date_to")).getD now
      if dateLt e s then ∅ else monthsBetween s e
  | _ => ∅

/-- The set accumulated over all entries (the Python `month_spans` set). -/
def coverSet (now : Date) (exps : List Json) : Finset (Nat × Nat) :=
  exps.foldl (fun acc exp => acc ∪ entryMonths now exp) ∅

/-- `_compute_experience_months` (lines 290-320): the size of the set of
`(year, month)` pairs covered by the entries, with `now` standing for
`datetime.utcnow()`. -/
def «_compute_experience_months» (now : Date) (exps : List Json) : Nat :=
  (coverSet now exps).card

/-! ## Display formatting (`_format_month_year`, `_format_date_range`) -/

/-- `strftime("%b")`: the English month abbreviation. -/
def monthAbbr : Nat → String
  | 1 => "Jan" | 2 => "Feb" | 3 => "Mar" | 4 => "Apr" | 5 => "May" | 6 => "Jun"
  | 7 => "Jul" | 8 => "Aug" | 9 => "Sep" | 10 => "Oct" | 11 => "Nov" | 12 => "Dec"
  | _ => ""

/-- `_format_month_year` (lines 383-387): `"Mon YYYY"`. -/
def «_format_month_year» (d : Date) : String :=
  monthAbbr d.month ++ " " ++ toString d.year

/-- `_format_date_range` (lines 371-381): `"<start> - <end>"` where the end
is `"Present"` when the entry is current or its end does not parse. -/
def «_format_date_range» (dateFrom dateTo : Json) (isCur : Bool) : String :=
  let s? := «_parse_date» dateFrom
  let e? := if isCur then none else «_parse_date» dateTo
  let sStr := match s? with
    | some d => «_format_month_year» d
    | none => ""
  let eStr := match isCur, e? with
    | true, _ => "Present"
    | false, none => "Present"
    | false, some d => «_format_month_year» d
  if sStr ≠ "" ∧ eStr ≠ "" then sStr ++ " - " ++ eStr
  else if sStr ≠ "" then sStr
  else if eStr ≠ "" then eStr
  else ""

/-! ## Position formatting (`_format_positions`, lines 322-369)

Each dict entry is turned into a display record; computing the dedup key
calls `.strip()` on the resolved title and company, which raises
`AttributeError` when the resolved value is a truthy non-string, so the
whole function returns `Except`.  Surviving titles and companies are
therefore strings and the record stores them as such; `location` and
`description` are stored raw (never string-coerced by the code).  The
internal `_start_dt` sort key is kept in `KPos` and dropped from the
returned `Position`, exactly as the code pops it. -/

/-- A position record while `_start_dt` is still attached. -/
structure KPos where
  title : String
  company : String
  period : String
  location : Json
  description : Json
  startDt : Option Date

/-- A returned position record, after `_start_dt` is popped. -/
structure Position where
  title : String
  company : String
  period : String
  location : Json
  description : Json

def dropKey (p : KPos) : Position :=
  ⟨p.title, p.company, p.period, p.location, p.description⟩

/-- `x.strip()` where `x` may be any Python value: an `AttributeError`
unless it is a string. -/
def pyStrMethod (j : Json) : Except String String :=
  match j with
  | .str s => .ok s
  | _ => .error "AttributeError: object has no attribute strip"

/-- One component of the dedup key: `.strip().lower()`. -/
def lowTrim (s : String) : String := pyLower (pyStrip s)

/-- The dedup triple of a keyed record (title, company, period, each
stripped and lowercased). -/
def tkey (p : KPos) : String × String × String :=
  (lowTrim p.title, lowTrim p.company, lowTrim p.period)

/-- The dedup triple of a returned record. -/
def tkeyP (p : Position) : String × String × String :=
  (lowTrim p.title, lowTrim p.company, lowTrim p.period)

/-- The three-way "is current" rule (lines 334-338): the vendor marks the
entry current, or `date_to` is `None`/`""`/`"Present"`, or `date_to` is a
string lowercasing to `"present"`. -/
def pyIsCurrent (fs : List (String × Json)) (dateToVal : Json) : Bool :=
  (match dictGet fs "current" with
   | .bool true => true
   | _ => false)
  || (match dateToVal with
      | .null => true
      | .str "" => true
      | .str "Present" => true
      | _ => false)
  || (match dateToVal with
      | .str s => decide (pyLower s = "present")
      | _ => false)

/-- Build one keyed record from a dict entry (lines 331-360); fails with the
`AttributeError` the dedup-key computation raises on a truthy non-string
title or company. -/
def mkKPos (fs : List (String × Json)) : Except String KPos :=
  let title := jor (dictGet fs "title") (jor (dictGet fs "position") (Json.str "Role"))
  let company := jor (dictGet fs "company_name") (jor (dictGet fs "company") (Json.str ""))
  let dateToVal := dictGet fs "date_to"
  let isCur := pyIsCurrent fs dateToVal
  let startDt := «_parse_date» (dictGet fs "date_from")
  let period := «_format_date_range» (dictGet fs "date_from") dateToVal isCur
  match pyStrMethod (jor title (Json.str "")) with
  | .error e => .error e
  | .ok ts =>
    match pyStrMethod (jor company (Json.str "")) with
    | .error e => .error e
    | .ok cs =>
      .ok { title := ts, company := cs, period := period,
            location := jor (dictGet fs "location") (Json.str ""),
            description := jor (dictGet fs "description") (Json.str ""),
            startDt := startDt }

/-- The loop of `_format_positions`: skip non-dict entries, build each dict
entry's record (faults propagate), skip records whose dedup key was already
seen, keep the rest in input order. -/
def formatLoop (seen : List (String × String × String)) :
    List Json → Except String (List KPos)
  | [] => .ok []
  | e :: es =>
    match e with
    | .obj fs =>
      match mkKPos fs with
      | .error msg => .error msg
      | .ok p =>
        if tkey p ∈ seen then formatLoop seen es
        else
          match formatLoop (tkey p :: seen) es with
          | .error msg => .error msg
          | .ok rest => .ok (p :: rest)
    | _ => formatLoop seen es

/-- The sort key (line 363): `_start_dt or datetime.min`, where
`datetime.min` is January 1 of year 1. -/
def sortKey (p : KPos) : Date := p.startDt.getD ⟨1, 1, 1⟩

/-- Stable insertion into a descending-by-key list: the new record goes
after every record whose key is at least its own, which is where Python's
stable `sort(key=..., reverse=True)` leaves a later-input record. -/
def insertD (x : KPos) : List KPos → List KPos
  | [] => [x]
  | y :: ys => if dateLe (sortKey x) (sortKey y) then y :: insertD x ys else x :: y :: ys

/-- The stable descending sort of line 363 (`positions.sort(key=lambda p:
p.get("_start_dt") or datetime.min, reverse=True)`), as insertion sort. -/
def sortDesc (l : List KPos) : List KPos :=
  l.foldl (fun acc x => insertD x acc) []

/-- `_format_positions` before the `_start_dt` pop: deduplicated records in
input order, then the stable descending sort. -/
def formatPositionsKeyed (exps : List Json) : Except String (List KPos) :=
  match formatLoop [] exps with
  | .error msg => .error msg
  | .ok l => .ok (sortDesc l)

/-- `_format_positions` (lines 322-369). -/
def «_format_positions» (exps : List Json) : Except String (List Position) :=
  match formatPositionsKeyed exps with
  | .error msg => .error msg
  | .ok l => .ok (l.map dropKey)

/-! ## Field extraction (`_extract_linkedin_url`, `_extract_photo_url`)

`_extract_linkedin_url` evaluates `url.startswith("http")` on any truthy
candidate, so a truthy non-string candidate raises `AttributeError`; a falsy
result of the `or` chain is returned as-is (it can only be the final `""`).
`_extract_photo_url` checks `isinstance` before every string operation and
never faults. -/

/-- `url.startswith("http")`. -/
def startsHttp : List Char → Bool
  | 'h' :: 't' :: 't' :: 'p' :: _ => true
  | _ => false

/-- `f"https://{url.lstrip('/')}"`. -/
def prependHttps (s : String) : String :=
  "https://" ++ String.mk (s.data.dropWhile (fun c => c = '/'))

/-- `_extract_linkedin_url` (lines 252-262) over the profile dict's fields:
first truthy of `profile_url`, `linkedin_url`, `url` (else `""`); a truthy
string gets the protocol prefix added when missing; a truthy non-string
raises `AttributeError` at `startswith`; a falsy value is returned raw. -/
def «_extract_linkedin_url» (fs : List (String × Json)) : Except String Json :=
  let url := jor (dictGet fs "profile_url")
    (jor (dictGet fs "linkedin_url") (jor (dictGet fs "url") (Json.str "")))
  if truthy url then
    match url with
    | .str s => .ok (.str (if startsHttp s.data then s else prependHttps s))
    | _ => .error "AttributeError: object has no attribute startswith"
  else .ok url

/-- The candidate keys of `_extract_photo_url`, in priority order. -/
def photoKeys : List String :=
  ["profile_image_url", "profile_picture_url", "picture_url", "avatar",
   "photo_url", "image_url", "picture"]

/-- The per-key body of `_extract_photo_url`'s loop: a truthy candidate, its
`url`/`src` sub-field when it is a dict, accepted when a string with
non-blank strip, protocol-normalized; `none` falls through to the next
key. -/
def photoCandidate (fs : List (String × Json)) (k : String) : Option String :=
  let url := dictGet fs k
  if truthy url then
    let url2 := match url with
      | .obj ufs => jor (dictGet ufs "url") (dictGet ufs "src")
      | _ => url
    match url2 with
    | .str s =>
      if pyStrip s ≠ "" then some (if startsHttp s.data then s else prependHttps s)
      else none
    | _ => none
  else none

/-- `_extract_photo_url` (lines 264-288): first accepted candidate, else
`""`. -/
def «_extract_photo_url» (fs : List (String × Json)) : String :=
  (photoKeys.filterMap (photoCandidate fs)).headD ""

/-! ## Profile normalization (`extract_profiles`, lines 113-183) -/

/-- Python `str(x)` for the values the skills list can hold, rendering
containers in `repr` style (string escaping inside containers is not
reproduced; no claim exercises it). -/
def pyToStr : Json → String :=
  fun j =>
    match j with
    | .str s => s
    | other => pyReprAux other
where
  pyReprAux : Json → String
    | .null => "None"
    | .bool true => "True"
    | .bool false => "False"
    | .num n => toString n
    | .str s => "'" ++ s ++ "'"
    | .arr l => "[" ++ joinComma (reprList l) ++ "]"
    | .obj l => "\x7b" ++ joinComma (reprPairs l) ++ "\x7d"
  reprList : List Json → List String
    | [] => []
    | x :: xs => pyReprAux x :: reprList xs
  reprPairs : List (String × Json) → List String
    | [] => []
    | (k, v) :: xs => ("'" ++ k ++ "': " ++ pyReprAux v) :: reprPairs xs
  joinComma : List String → String
    | [] => ""
    | [s] => s
    | s :: rest => s ++ ", " ++ joinComma rest

/-- One skills entry (line 148): `skill.get("name", skill)` for dicts,
`str(skill)` otherwise. -/
def skillValue (skill : Json) : Json :=
  match skill with
  | .obj fs => dictGetD fs "name" skill
  | _ => .str (pyToStr skill)

/-- One education entry (lines 154-161): dicts keep `(school, degree)` when
either is truthy, bare strings become `(school, "")`, the rest are
dropped. -/
def eduValue (edu : Json) : Option (Json × Json) :=
  match edu with
  | .obj fs =>
    let school := dictGetD fs "school" (Json.str "")
    let degree := dictGetD fs "degree" (Json.str "")
    if truthy school || truthy degree then some (school, degree) else none
  | .str s => some (.str s, .str "")
  | _ => none

/-- The canonical profile record `extract_profiles` builds (lines 167-180).
Fields the code never string-coerces stay `Json`. -/
structure Profile where
  name : Json
  title : Json
  company : Json
  location : Json
  experienceMonths : Nat
  skills : List Json
  education : List (Json × Json)
  linkedinUrl : Json
  summary : String
  positions : List Position
  photoUrl : String
  source : String

/-- Normalize one search result (the body of the `for result in results`
loop, lines 129-181).  Faults: a non-dict result at its first `.get`; a
non-dict first experience entry at `latest_exp.get` (line 139); the
LinkedIn and positions faults, in the order the profile dict literal
evaluates them. -/
def processResult (now : Date) (result : Json) : Except String Profile :=
  match result with
  | .obj fields =>
    let experience := dictGetD fields "experience" (Json.arr [])
    let entries := match experience with
      | .arr l => l
      | _ => []
    let companyMonths : Except String (Json × Nat) :=
      match entries with
      | [] => .ok (Json.str "N/A", 0)
      | latest :: _ =>
        match latest with
        | .obj lf => .ok (dictGetD lf "company_name" (Json.str "N/A"),
                          «_compute_experience_months» now entries)
        | _ => .error "AttributeError: object has no attribute get"
    match companyMonths with
    | .error msg => .error msg
    | .ok (company, months) =>
      let skillsList := match dictGetD fields "skills" (Json.arr []) with
        | .arr l => l.map skillValue
        | _ => []
      let educationList := match dictGetD fields "education" (Json.arr []) with
        | .arr l => l.filterMap eduValue
        | _ => []
      let rawSummary := jor (dictGet fields "summary")
        (jor (dictGet fields "about") (Json.str ""))
      let summary := match rawSummary with
        | .str s => pyStrip s
        | _ => ""
      let location := jor (dictGet fields "location")
        (jor (dictGet fields "city") (jor (dictGet fields "country") (Json.str "N/A")))
      match «_extract_linkedin_url» fields with
      | .error msg => .error msg
      | .ok linkedin =>
        match «_format_positions» entries with
        | .error msg => .error msg
        | .ok positions =>
          .ok { name := dictGetD fields "full_name" (Json.str "N/A"),
                title := dictGetD fields "headline" (Json.str "N/A"),
                company := company,
                location := location,
                experienceMonths := months,
                skills := skillsList,
                education := educationList,
                linkedinUrl := linkedin,
                summary := summary,
                positions := positions,
                photoUrl := «_extract_photo_url» fields,
                source := "" }
  | _ => .error "AttributeError: object has no attribute get"

/-- Substring test, for `"error" in raw_data` when `raw_data` is a string. -/
def hasSubstr (hay needle : List Char) : Bool :=
  match hay with
  | [] => needle.isEmpty
  | _ :: tl => needle.isPrefixOf hay || hasSubstr tl needle

/-- Normalize each result in order, stopping at the first fault. -/
def processResults (now : Date) : List Json → Except String (List Profile)
  | [] => .ok []
  | r :: rs =>
    match processResult now r with
    | .error msg => .error msg
    | .ok p =>
      match processResults now rs with
      | .error msg => .error msg
      | .ok ps => .ok (p :: ps)

/-- `extract_profiles` (lines 113-183): `[]` when the raw response carries
an `error` key, else each entry of `results` normalized; the non-dict
shapes of `raw_data` and `results` fault the way `"error" in raw_data` and
`for result in results` do in Python. -/
def extract_profiles (now : Date) (raw : Json) : Except String (List Profile) :=
  match raw with
  | .obj fields =>
    if fields.any (fun kv => kv.1 = "error") then .ok []
    else
      match dictGetD fields "results" (Json.arr []) with
      | .arr l => processResults now l
      | .str "" => .ok []
      | .str _ => .error "AttributeError: object has no attribute get"
      | .obj [] => .ok []
      | .obj (_ :: _) => .error "AttributeError: object has no attribute get"
      | _ => .error "TypeError: object is not iterable"
  | .arr l =>
    if l.any (fun x => match x with
      | .str s => decide (s = "error")
      | _ => false) then .ok []
    else .error "AttributeError: object has no attribute get"
  | .str s =>
    if hasSubstr s.data "error".data then .ok []
    else .error "AttributeError: object has no attribute get"
  | _ => .error "TypeError: argument is not iterable"

/-! ## Vendor search orchestration (`search_person`, `_build_search_payloads`,
`_search_employee_ids`, lines 25-111 and 185-250)

HTTP is abstracted as oracles: `post` maps a search payload to the outcome
of `client.post` + `raise_for_status` + `.json()` on the search endpoint,
`get` maps an employee identifier to the outcome of the collect call.  A
`Resp.ok body` is a 2xx response with JSON body `body`;
`Resp.httpStatusError c` is the `httpx.HTTPStatusError` that
`raise_for_status` raises on status `c`; `Resp.transportError` is any other
`httpx.HTTPError`.  `_search_employee_ids` also returns the list of payloads
it posted, so the retry policy is statable. -/

/-- A search payload (a Python dict). -/
abbrev Payload := List (String × Json)

/-- The outcome of one HTTP call. -/
inductive Resp where
  | ok (body : Json)
  | httpStatusError (code : Nat)
  | transportError

/-- The `httpx.HTTPError` values the orchestrator handles. -/
inductive HErr where
  | status (code : Nat)
  | transport

/-- `getattr(e.response, "status_code", None) if hasattr(e, "response") else
None` (line 109): a status error carries its code, a transport error has no
response. -/
def statusCodeOf : HErr → Option Nat
  | .status c => some c
  | .transport => none

/-- `parse_ids` (lines 214-218): the body when it is a JSON array, else `[]`. -/
def parseIds : Json → List Json
  | .arr l => l
  | _ => []

/-- `_build_search_payloads` (lines 185-203): an exact-name payload then a
title payload, each with `company_name` when the company argument is
truthy. -/
def «_build_search_payloads» (name : String) (company : Option String) : List Payload :=
  let companyField : List (String × Json) := match company with
    | some c => if c ≠ "" then [("company_name", Json.str c)] else []
    | none => []
  [[("full_name", Json.str name)] ++ companyField,
   [("title", Json.str name)] ++ companyField]

/-- `any(k in payload for k in ("company_name", "company"))` (line 235). -/
def hasCompanyFilter (p : Payload) : Bool :=
  p.any (fun kv => kv.1 = "company_name" || kv.1 = "company")

/-- The stripped payload of lines 237-239: every key but `company_name` and
`company`, order preserved. -/
def stripCompany (p : Payload) : Payload :=
  p.filter (fun kv => !(kv.1 = "company_name" || kv.1 = "company"))

/-- The result `raise_for_status` + `.json()` + `parse_ids` produce from one
response. -/
def respToResult : Resp → Except HErr (List Json)
  | .ok body => .ok (parseIds body)
  | .httpStatusError c => .error (.status c)
  | .transportError => .error .transport

/-- `_search_employee_ids` (lines 205-250) with its request trace: post the
payload; on a 422 status error when the payload has a company filter, post
once more with the filter stripped and let that attempt's outcome stand;
any other error propagates. -/
def «_search_employee_ids» (post : Payload → Resp) (p : Payload) :
    Except HErr (List Json) × List Payload :=
  match post p with
  | .ok body => (.ok (parseIds body), [p])
  | .transportError => (.error .transport, [p])
  | .httpStatusError c =>
    if c = 422 && hasCompanyFilter p then
      let p2 := stripCompany p
      (respToResult (post p2), [p, p2])
    else (.error (.status c), [p])

/-- Phase 1 of `search_person` (lines 58-66): try each payload in order,
stopping at the first non-empty identifier list; an erroring attempt
replaces `last_error`, an empty-but-successful attempt leaves it. -/
def phase1 (post : Payload → Resp) : List Payload → Option HErr → Option HErr × List Json
  | [], lastError => (lastError, [])
  | p :: ps, lastError =>
    match («_search_employee_ids» post p).1 with
    | .ok [] => phase1 post ps lastError
    | .ok (i :: is) => (lastError, i :: is)
    | .error e => phase1 post ps (some e)

/-- Phase 2 of `search_person` (lines 83-95): fetch each identifier's
record; a successful fetch contributes its body, any failure is skipped. -/
def collectLoop (get : Json → Resp) : List Json → List Json
  | [] => []
  | i :: is =>
    match get i with
    | .ok body => body :: collectLoop get is
    | _ => collectLoop get is

/-- The outcome dict of `search_person`: `{"results": ...}` on success
(no `error`/`status_code` keys, modelled `none`), or
`{"error": ..., "status_code": ..., "results": []}`. -/
structure SPResult where
  error : Option HErr
  status_code : Option Nat
  results : List Json

/-- `search_person` (lines 25-111): trim the name (empty → immediate empty
result), run phase 1 over the payload sequence, raise the recorded error
when no identifiers were found and an attempt had failed — caught at the
boundary and converted to the structured error result — else collect up to
`limit` full records. -/
def search_person (post : Payload → Resp) (get : Json → Resp)
    (name : String) (company : Option String) (limit : Nat) : SPResult :=
  let nm := pyStrip name
  if nm = "" then ⟨none, none, []⟩
  else
    match phase1 post («_build_search_payloads» nm company) none with
    | (some e, []) => ⟨some e, statusCodeOf e, []⟩
    | (none, []) => ⟨none, none, []⟩
    | (_, i :: is) => ⟨none, none, collectLoop get ((i :: is).take limit)⟩

/-! ## Lemmas about the month aggregation -/

theorem mem_foldl_union {α β : Type} [DecidableEq β] (f : α → Finset β) :
    ∀ (l : List α) (acc : Finset β) (x : β),
      x ∈ l.foldl (fun a e => a ∪ f e) acc ↔ x ∈ acc ∨ ∃ e ∈ l, x ∈ f e := by
  intro l
  induction l with
  | nil => simp
  | cons e es ih =>
    intro acc x
    simp only [List.foldl_cons, ih, Finset.mem_union, List.mem_cons]
    constructor
    · rintro ((h | h) | ⟨e', he', hx⟩)
      · exact Or.inl h
      · exact Or.inr ⟨e, Or.inl rfl, h⟩
      · exact Or.inr ⟨e', Or.inr he', hx⟩
    · rintro (h | ⟨e', (rfl | he'), hx⟩)
      · exact Or.inl (Or.inl h)
      · exact Or.inl (Or.inr hx)
      · exact Or.inr ⟨e', he', hx⟩

theorem card_foldl_union_le {α β : Type} [DecidableEq β] (f : α → Finset β) :
    ∀ (l : List α) (acc : Finset β),
      (l.foldl (fun a e => a ∪ f e) acc).card ≤ acc.card + (l.map (fun e => (f e).card)).sum := by
  intro l
  induction l with
  | nil => simp
  | cons e es ih =>
    intro acc
    calc (List.foldl (fun a e => a ∪ f e) (acc ∪ f e) es).card
        ≤ (acc ∪ f e).card + (es.map (fun e => (f e).card)).sum := ih (acc ∪ f e)
      _ ≤ acc.card + (f e).card + (es.map (fun e => (f e).card)).sum := by
          exact Nat.add_le_add_right (Finset.card_union_le acc (f e)) _
      _ = acc.card + ((e :: es).map (fun e => (f e).card)).sum := by
          simp [Nat.add_assoc]

theorem idxToYM_injective : Function.Injective idxToYM := by
  intro a b h
  simp only [idxToYM, Prod.mk.injEq] at h
  omega

theorem idxToYM_eq_iff (n : Nat) (ym : Nat × Nat) :
    idxToYM n = ym ↔ 1 ≤ ym.2 ∧ ym.2 ≤ 12 ∧ ym.1 * 12 + (ym.2 - 1) = n := by
  cases ym with
  | mk y m =>
    simp only [idxToYM, Prod.mk.injEq]
    constructor
    · rintro ⟨rfl, rfl⟩
      refine ⟨by omega, by omega, by omega⟩
    · rintro ⟨h1, h2, h3⟩
      omega

theorem mem_monthsBetween (s e : Date) (ym : Nat × Nat) :
    ym ∈ monthsBetween s e ↔
      1 ≤ ym.2 ∧ ym.2 ≤ 12 ∧
      monthIdx s ≤ ym.1 * 12 + (ym.2 - 1) ∧ ym.1 * 12 + (ym.2 - 1) ≤ monthIdx e := by
  simp only [monthsBetween, Finset.mem_image, Finset.mem_Icc]
  constructor
  · rintro ⟨n, ⟨h1, h2⟩, h3⟩
    rw [idxToYM_eq_iff] at h3
    exact ⟨h3.1, h3.2.1, by omega, by omega⟩
  · rintro ⟨h1, h2, h3, h4⟩
    exact ⟨ym.1 * 12 + (ym.2 - 1), ⟨h3, h4⟩, (idxToYM_eq_iff _ _).mpr ⟨h1, h2, rfl⟩⟩

theorem card_monthsBetween (s e : Date) :
    (monthsBetween s e).card = monthIdx e + 1 - monthIdx s := by
  rw [monthsBetween, Finset.card_image_of_injective _ idxToYM_injective, Nat.card_Icc]

/-- The claim's reading of which months one entry covers, written from the
spec's words: the entry is a mapping whose start parses, its end (parsed
`date_to`, else the current time) is not before the start, and the month is
a calendar month lying between the start's month and the end's month
inclusive. -/
def coversSpec (now : Date) (exp : Json) (ym : Nat × Nat) : Prop :=
  ∃ fs, exp = Json.obj fs ∧
    ∃ s, «_parse_date» (dictGet fs "date_from") = some s ∧
      dateLt ((«_parse_date» (dictGet fs "date_to")).getD now) s = false ∧
      1 ≤ ym.2 ∧ ym.2 ≤ 12 ∧
      monthIdx s ≤ ym.1 * 12 + (ym.2 - 1) ∧
      ym.1 * 12 + (ym.2 - 1) ≤ monthIdx ((«_parse_date» (dictGet fs "date_to")).getD now)

/-- The claim's reading of one span's length in months, written from the
spec's words: the inclusive month count from start month to end month for a
qualifying entry, 0 otherwise. -/
def specSpanLen (now : Date) (exp : Json) : Nat :=
  match exp with
  | .obj fs =>
    match «_parse_date» (dictGet fs "date_from") with
    | none => 0
    | some s =>
      let e := («_parse_date» (dictGet fs "date_to")).getD now
      if dateLt e s then 0 else monthIdx e + 1 - monthIdx s
  | _ => 0

theorem mem_entryMonths (now : Date) (exp : Json) (ym : Nat × Nat) :
    ym ∈ entryMonths now exp ↔ coversSpec now exp ym := by
  cases exp with
  | obj fs =>
    simp only [entryMonths]
    constructor
    · intro hx
      split at hx
      next => exact absurd hx (Finset.not_mem_empty ym)
      next s heq =>
        split at hx
        next => exact absurd hx (Finset.not_mem_empty ym)
        next hlt =>
          rw [mem_monthsBetween] at hx
          exact ⟨fs, rfl, s, heq, by simpa using hlt, hx.1, hx.2.1, hx.2.2.1, hx.2.2.2⟩
    · rintro ⟨fs', hfs, s, hs, hlt, h1, h2, h3, h4⟩
      injection hfs with hfs'
      subst hfs'
      split
      next heq => rw [heq] at hs; cases hs
      next s' heq =>
        rw [heq] at hs
        injection hs with hs'
        subst hs'
        rw [if_neg (by simp [hlt])]
        exact (mem_monthsBetween _ _ _).mpr ⟨h1, h2, h3, h4⟩
  | null => simp [entryMonths, coversSpec]
  | bool b => simp [entryMonths, coversSpec]
  | num n => simp [entryMonths, coversSpec]
  | str s => simp [entryMonths, coversSpec]
  | arr l => simp [entryMonths, coversSpec]

theorem card_entryMonths (now : Date) (exp : Json) :
    (entryMonths now exp).card = specSpanLen now exp := by
  cases exp with
  | obj fs =>
    simp only [entryMonths, specSpanLen]
    split
    next => exact Finset.card_empty
    next s heq =>
      split
      next => exact Finset.card_empty
      next => exact card_monthsBetween _ _
  | null => simp [entryMonths, specSpanLen]
  | bool b => simp [entryMonths, specSpanLen]
  | num n => simp [entryMonths, specSpanLen]
  | str s => simp [entryMonths, specSpanLen]
  | arr l => simp [entryMonths, specSpanLen]

theorem mem_coverSet (now : Date) (exps : List Json) (ym : Nat × Nat) :
    ym ∈ coverSet now exps ↔ ∃ exp ∈ exps, ym ∈ entryMonths now exp := by
  rw [coverSet, mem_foldl_union]
  simp

/-- C1: `_compute_experience_months` returns exactly the number of distinct
`(year, month)` calendar months covered by the entries whose start parses
and whose end is not before the start; it is at most the sum of the
individual span lengths in months; and the spans 2020-01 to 2020-06 and
2020-04 to 2020-09 together yield 9 months, not 11. -/
theorem spec_c1 :
    (∀ now exps ym, ym ∈ coverSet now exps ↔ ∃ exp ∈ exps, coversSpec now exp ym)
    ∧ (∀ now exps, «_compute_experience_months» now exps = (coverSet now exps).card)
    ∧ (∀ now exps, «_compute_experience_months» now exps ≤
        (exps.map (fun exp => specSpanLen now exp)).sum)
    ∧ «_compute_experience_months» ⟨2025, 1, 1⟩
        [Json.obj [("date_from", Json.str "2020-01"), ("date_to", Json.str "2020-06")],
         Json.obj [("date_from", Json.str "2020-04"), ("date_to", Json.str "2020-09")]] = 9
    ∧ (9 : Nat) ≠ 11 := by
  refine ⟨fun now exps ym => ?_, fun now exps => rfl, fun now exps => ?_, by decide, by decide⟩
  · rw [mem_coverSet]
    simp only [mem_entryMonths]
  · calc «_compute_experience_months» now exps
        ≤ (∅ : Finset (Nat × Nat)).card +
            (exps.map (fun exp => (entryMonths now exp).card)).sum :=
          card_foldl_union_le _ exps ∅
      _ = (exps.map (fun exp => specSpanLen now exp)).sum := by
          simp only [Finset.card_empty, Nat.zero_add]
          congr 1
          exact List.map_congr_left (fun exp _ => card_entryMonths now exp)

/-- C10: for a fixed current time, `_compute_experience_months` is invariant
under permutation of the experience-entry list, because coverage accumulates
in a set of `(year, month)` identities. -/
theorem spec_c10 (now : Date) (l₁ l₂ : List Json) (h : l₁.Perm l₂) :
    «_compute_experience_months» now l₁ = «_compute_experience_months» now l₂ := by
  unfold «_compute_experience_months»
  congr 1
  apply Finset.ext
  intro ym
  rw [mem_coverSet, mem_coverSet]
  constructor
  · rintro ⟨e, he, hx⟩
    exact ⟨e, h.mem_iff.mp he, hx⟩
  · rintro ⟨e, he, hx⟩
    exact ⟨e, h.mem_iff.mpr he, hx⟩

def c10a : Json := Json.obj [("date_from", Json.str "2020-01"), ("date_to", Json.str "2020-06")]

def c10b : Json := Json.obj [("date_from", Json.str "2020-04"), ("date_to", Json.str "2020-09")]

/-- Witness for C10 at a concrete permutation. -/
theorem spec_c10_witness :
    «_compute_experience_months» ⟨2025, 1, 1⟩ [c10a, c10b] =
      «_compute_experience_months» ⟨2025, 1, 1⟩ [c10b, c10a] :=
  spec_c10 ⟨2025, 1, 1⟩ [c10a, c10b] [c10b, c10a] (List.Perm.swap c10b c10a [])

/-! ## Lemmas about the position formatter -/

theorem dateLe_total (a b : Date) : dateLe a b = true ∨ dateLe b a = true := by
  simp only [dateLe, decide_eq_true_eq]
  omega

theorem dateLe_trans {a b c : Date} (h1 : dateLe a b = true) (h2 : dateLe b c = true) :
    dateLe a c = true := by
  simp only [dateLe, decide_eq_true_eq] at h1 h2 ⊢
  omega

/-- The descending-by-start-key order the sort of line 363 establishes. -/
def descBy (a b : KPos) : Prop := dateLe (sortKey b) (sortKey a) = true

theorem insertD_perm (x : KPos) (l : List KPos) : (insertD x l).Perm (x :: l) := by
  induction l with
  | nil => exact List.Perm.refl _
  | cons y ys ih =>
    unfold insertD
    split
    · exact (ih.cons y).trans (List.Perm.swap x y ys)
    · exact List.Perm.refl _

theorem mem_insertD {x z : KPos} {l : List KPos} (h : z ∈ insertD x l) : z = x ∨ z ∈ l :=
  List.mem_cons.mp ((insertD_perm x l).mem_iff.mp h)

theorem insertD_sorted (x : KPos) {l : List KPos} (h : l.Pairwise descBy) :
    (insertD x l).Pairwise descBy := by
  induction l with
  | nil => simp [insertD, List.pairwise_cons]
  | cons y ys ih =>
    rw [List.pairwise_cons] at h
    unfold insertD
    split
    next hle =>
      rw [List.pairwise_cons]
      refine ⟨fun z hz => ?_, ih h.2⟩
      rcases mem_insertD hz with rfl | hz'
      · exact hle
      · exact h.1 z hz'
    next hgt =>
      have hyx : descBy x y := by
        rcases dateLe_total (sortKey x) (sortKey y) with hc | hc
        · exact absurd hc hgt
        · exact hc
      rw [List.pairwise_cons]
      refine ⟨fun z hz => ?_, List.pairwise_cons.mpr h⟩
      rcases List.mem_cons.mp hz with rfl | hz'
      · exact hyx
      · exact dateLe_trans (h.1 z hz') hyx

theorem foldl_insertD_perm :
    ∀ (l acc : List KPos), (l.foldl (fun acc x => insertD x acc) acc).Perm (acc ++ l) := by
  intro l
  induction l with
  | nil => simp
  | cons x xs ih =>
    intro acc
    exact ((ih (insertD x acc)).trans
      (((insertD_perm x acc).append_right xs).trans List.perm_middle.symm))

theorem foldl_insertD_sorted :
    ∀ (l acc : List KPos), acc.Pairwise descBy →
      (l.foldl (fun acc x => insertD x acc) acc).Pairwise descBy := by
  intro l
  induction l with
  | nil => exact fun acc h => h
  | cons x xs ih => exact fun acc h => ih (insertD x acc) (insertD_sorted x h)

theorem sortDesc_perm (l : List KPos) : (sortDesc l).Perm l :=
  foldl_insertD_perm l []

theorem sortDesc_sorted (l : List KPos) : (sortDesc l).Pairwise descBy :=
  foldl_insertD_sorted l [] (List.Pairwise.nil)

/-- The records of every dict entry in input order, with no deduplication:
the per-entry work of `_format_positions` before the seen-key check. -/
def allKPos : List Json → Except String (List KPos)
  | [] => .ok []
  | e :: es =>
    match e with
    | .obj fs =>
      match mkKPos fs with
      | .error msg => .error msg
      | .ok p =>
        match allKPos es with
        | .error msg => .error msg
        | .ok rest => .ok (p :: rest)
    | _ => allKPos es

/-- The seen-set filter of the loop, isolated: keep a record when its dedup
key is not among `seen`, remembering the keys of kept records. -/
def keepFrom (seen : List (String × String × String)) : List KPos → List KPos
  | [] => []
  | x :: xs => if tkey x ∈ seen then keepFrom seen xs else x :: keepFrom (tkey x :: seen) xs

/-- First-occurrence deduplication written from the spec's words: keep the
head and drop every later record sharing its dedup triple. -/
def dedupFirst : List KPos → List KPos
  | [] => []
  | x :: xs => x :: dedupFirst (xs.filter (fun y => decide (tkey y ≠ tkey x)))
termination_by l => l.length
decreasing_by
  simp only [List.length_cons]
  exact Nat.lt_succ_of_le (List.length_filter_le _ _)

theorem formatLoop_eq :
    ∀ (exps : List Json) (seen : List (String × String × String)),
      formatLoop seen exps = (allKPos exps).map (keepFrom seen) := by
  intro exps
  induction exps with
  | nil => intro seen; rfl
  | cons e es ih =>
    intro seen
    cases e with
    | obj fs =>
      simp only [formatLoop, allKPos]
      cases mkKPos fs with
      | error msg => rfl
      | ok p =>
        simp only []
        by_cases hseen : tkey p ∈ seen
        · rw [if_pos hseen, ih seen]
          cases allKPos es with
          | error msg => rfl
          | ok rest => simp [Except.map, keepFrom, hseen]
        · rw [if_neg hseen, ih (tkey p :: seen)]
          cases allKPos es with
          | error msg => rfl
          | ok rest => simp [Except.map, keepFrom, hseen]
    | null => exact ih seen
    | bool b => exact ih seen
    | num n => exact ih seen
    | str s => exact ih seen
    | arr l => exact ih seen

theorem keepFrom_eq_dedupFirst :
    ∀ (l : List KPos) (seen : List (String × String × String)),
      keepFrom seen l = dedupFirst (l.filter (fun y => decide (tkey y ∉ seen))) := by
  intro l
  induction l with
  | nil => intro seen; simp only [keepFrom, List.filter_nil, dedupFirst]
  | cons x xs ih =>
    intro seen
    by_cases hseen : tkey x ∈ seen
    · rw [keepFrom, if_pos hseen]
      rw [List.filter_cons_of_neg (by simpa using hseen)]
      exact ih seen
    · rw [keepFrom, if_neg hseen]
      rw [List.filter_cons_of_pos (by simpa using hseen)]
      simp only [dedupFirst, List.filter_filter]
      rw [ih (tkey x :: seen)]
      congr 1
      congr 1
      apply List.filter_congr
      intro y _
      rcases Decidable.em (tkey y = tkey x) with h | h <;>
        rcases Decidable.em (tkey y ∈ seen) with h' | h' <;>
        simp [h, h']

theorem mem_dedupFirst_aux :
    ∀ (n : Nat) (l : List KPos), l.length ≤ n → ∀ z ∈ dedupFirst l, z ∈ l := by
  intro n
  induction n with
  | zero =>
    intro l hl z hz
    cases l with
    | nil => exact absurd hz (by simp [dedupFirst])
    | cons x xs => exact absurd hl (by simp)
  | succ n ih =>
    intro l hl z hz
    cases l with
    | nil => exact absurd hz (by simp [dedupFirst])
    | cons x xs =>
      simp only [dedupFirst] at hz
      rcases List.mem_cons.mp hz with rfl | h'
      · exact List.mem_cons_self z xs
      · have hlen : (xs.filter (fun y => decide (tkey y ≠ tkey x))).length ≤ n :=
          Nat.le_trans (List.length_filter_le _ xs) (by simpa using hl)
        exact List.mem_cons_of_mem x (List.mem_of_mem_filter (ih _ hlen z h'))

theorem mem_dedupFirst {l : List KPos} {z : KPos} (h : z ∈ dedupFirst l) : z ∈ l :=
  mem_dedupFirst_aux l.length l (Nat.le_refl _) z h

theorem dedupFirst_pairwise_aux :
    ∀ (n : Nat) (l : List KPos), l.length ≤ n →
      (dedupFirst l).Pairwise (fun a b => tkey a ≠ tkey b) := by
  intro n
  induction n with
  | zero =>
    intro l hl
    cases l with
    | nil => simp [dedupFirst]
    | cons x xs => exact absurd hl (by simp)
  | succ n ih =>
    intro l hl
    cases l with
    | nil => simp [dedupFirst]
    | cons x xs =>
      have hlen : (xs.filter (fun y => decide (tkey y ≠ tkey x))).length ≤ n :=
        Nat.le_trans (List.length_filter_le _ xs) (by simpa using hl)
      simp only [dedupFirst, List.pairwise_cons]
      refine ⟨fun z hz => ?_, ih _ hlen⟩
      have := List.of_mem_filter (mem_dedupFirst hz)
      simp only [decide_eq_true_eq] at this
      exact fun hk => this hk.symm

theorem dedupFirst_pairwise (l : List KPos) :
    (dedupFirst l).Pairwise (fun a b => tkey a ≠ tkey b) :=
  dedupFirst_pairwise_aux l.length l (Nat.le_refl _)

theorem tkeyP_dropKey (p : KPos) : tkeyP (dropKey p) = tkey p := rfl

/-- C2: the list `_format_positions` returns contains no two entries whose
(title, company, period) triples agree after trimming and lowercasing, and
it is (up to the final sort's reordering) the first-occurrence
deduplication of the records of all dict entries: the first record of each
triple is kept, later duplicates are dropped. -/
theorem spec_c2 (exps : List Json) (ps : List Position)
    (h : «_format_positions» exps = Except.ok ps) :
    ps.Pairwise (fun a b => tkeyP a ≠ tkeyP b)
    ∧ ∃ pre, allKPos exps = Except.ok pre ∧ ps.Perm ((dedupFirst pre).map dropKey) := by
  unfold «_format_positions» formatPositionsKeyed at h
  rw [formatLoop_eq] at h
  cases hall : allKPos exps with
  | error msg => rw [hall] at h; cases h
  | ok pre =>
    rw [hall] at h
    simp only [Except.map] at h
    injection h with h
    subst h
    have hkeep : keepFrom [] pre = dedupFirst pre := by
      rw [keepFrom_eq_dedupFirst]
      congr 1
      simp
    rw [hkeep]
    have hperm : (sortDesc (dedupFirst pre)).Perm (dedupFirst pre) := sortDesc_perm _
    have hpair : (sortDesc (dedupFirst pre)).Pairwise (fun a b => tkey a ≠ tkey b) :=
      (hperm.pairwise_iff (fun hab e => hab e.symm)).mpr (dedupFirst_pairwise pre)
    refine ⟨?_, pre, rfl, hperm.map dropKey⟩
    rw [List.pairwise_map]
    exact hpair

def c2exp1 : Json :=
  Json.obj [("title", Json.str "Engineer"), ("company_name", Json.str "Acme"),
            ("date_from", Json.str "2020-01")]

def c2exp2 : Json :=
  Json.obj [("title", Json.str " engineer "), ("company", Json.str "ACME"),
            ("date_from", Json.str "2020-01")]

def c2out : Position := ⟨"Engineer", "Acme", "Jan 2020 - Present", Json.str "", Json.str ""⟩

/-- Witness for C2: two raw entries both mapping to the triple
("engineer", "acme", "jan 2020 - present") collapse to one entry. -/
theorem spec_c2_witness :
    [c2out].Pairwise (fun a b => tkeyP a ≠ tkeyP b)
    ∧ ∃ pre, allKPos [c2exp1, c2exp2] = Except.ok pre ∧
        [c2out].Perm ((dedupFirst pre).map dropKey) :=
  spec_c2 [c2exp1, c2exp2] [c2out] (by rfl)

/-- The claim's "every entry whose start date does not parse is ordered
after all entries with a parseable start": once an undated record appears,
every later record is undated too. -/
def undatedAfterDated (ps : List KPos) : Prop :=
  ∀ i j (hi : i < ps.length) (hj : j < ps.length), i < j →
    (ps.get ⟨i, hi⟩).startDt = none → (ps.get ⟨j, hj⟩).startDt = none

def c3inU : Json := Json.obj [("title", Json.str "A")]

def c3inM : Json := Json.obj [("title", Json.str "B"), ("date_from", Json.str "0001-01-01")]

def c3u : KPos := ⟨"A", "", "Present", Json.str "", Json.str "", none⟩

def c3m : KPos := ⟨"B", "", "Jan 1 - Present", Json.str "", Json.str "", some ⟨1, 1, 1⟩⟩

/-- C3, counterexample: the claim fails as stated.  An entry with no
parseable start carries the same sort key as an entry whose start parses to
the minimum date 0001-01-01, and the stable sort leaves the undated entry
first, so an undated entry can be ordered before a dated one. -/
theorem spec_c3_counterexample :
    ¬ ∀ (exps : List Json) (ps : List KPos),
        formatPositionsKeyed exps = Except.ok ps →
        ps.Pairwise descBy ∧ undatedAfterDated ps := by
  intro h
  have h2 := (h [c3inU, c3inM] [c3u, c3m] (by rfl)).2
  have h3 := h2 0 1 (by decide) (by decide) (by decide) rfl
  have h4 : (some (⟨1, 1, 1⟩ : Date) : Option Date) = none := h3
  cases h4

/-- C3, amended: the output of `_format_positions` (whose order is that of
the keyed list) is sorted descending by the sort key "parsed start, else
the minimum date 0001-01-01"; consequently every entry whose start does not
parse is ordered after all entries whose parsed start is later than
0001-01-01, but it may precede an entry whose start parses exactly to the
minimum date. -/
theorem spec_c3_amended (exps : List Json) (ps : List KPos)
    (h : formatPositionsKeyed exps = Except.ok ps) :
    «_format_positions» exps = Except.ok (ps.map dropKey)
    ∧ ps.Pairwise descBy
    ∧ ∀ i j (hi : i < ps.length) (hj : j < ps.length), i < j →
        (ps.get ⟨i, hi⟩).startDt = none →
        dateLe (sortKey (ps.get ⟨j, hj⟩)) ⟨1, 1, 1⟩ = true := by
  have hsorted : ps.Pairwise descBy := by
    unfold formatPositionsKeyed at h
    cases hfl : formatLoop [] exps with
    | error m => rw [hfl] at h; cases h
    | ok l =>
      rw [hfl] at h
      injection h with h
      subst h
      exact sortDesc_sorted l
  refine ⟨?_, hsorted, ?_⟩
  · unfold «_format_positions» formatPositionsKeyed
    unfold formatPositionsKeyed at h
    rw [h]
  · intro i j hi hj hij hnone
    have hp := List.pairwise_iff_get.mp hsorted ⟨i, hi⟩ ⟨j, hj⟩ hij
    unfold descBy sortKey at hp
    rw [hnone] at hp
    simpa [sortKey] using hp

/-- Witness for C3's amended claim at the counterexample input. -/
theorem spec_c3_witness :
    «_format_positions» [c3inU, c3inM] = Except.ok ([c3u, c3m].map dropKey)
    ∧ ([c3u, c3m] : List KPos).Pairwise descBy
    ∧ ∀ i j (hi : i < ([c3u, c3m] : List KPos).length)
        (hj : j < ([c3u, c3m] : List KPos).length), i < j →
        (([c3u, c3m] : List KPos).get ⟨i, hi⟩).startDt = none →
        dateLe (sortKey (([c3u, c3m] : List KPos).get ⟨j, hj⟩)) ⟨1, 1, 1⟩ = true :=
  spec_c3_amended [c3inU, c3inM] [c3u, c3m] (by rfl)

/-! ## Lemmas about the orchestrator -/

theorem hasCompanyFilter_stripCompany (p : Payload) :
    hasCompanyFilter (stripCompany p) = false := by
  unfold hasCompanyFilter stripCompany
  induction p with
  | nil => rfl
  | cons kv rest ih =>
    by_cases h : kv.1 = "company_name" ∨ kv.1 = "company"
    · rcases h with h | h <;>
        · rw [List.filter_cons_of_neg (by simp [h])]
          exact ih
    · obtain ⟨h1, h2⟩ := not_or.mp h
      rw [List.filter_cons_of_pos (by simp [h1, h2])]
      rw [List.any_cons, ih]
      simp [h1, h2]

/-- C4: a 422 status response to a payload carrying a company filter makes
`_search_employee_ids` post exactly one more request, with the company
filter stripped, and that retry's outcome stands; a 422 response to a
payload without a company filter is not retried and the error propagates. -/
theorem spec_c4 (post : Payload → Resp) (p : Payload)
    (h422 : post p = Resp.httpStatusError 422) :
    (hasCompanyFilter p = true →
      («_search_employee_ids» post p).2 = [p, stripCompany p]
      ∧ hasCompanyFilter (stripCompany p) = false
      ∧ («_search_employee_ids» post p).1 = respToResult (post (stripCompany p)))
    ∧ (hasCompanyFilter p = false →
      («_search_employee_ids» post p).2 = [p]
      ∧ («_search_employee_ids» post p).1 = Except.error (HErr.status 422)) := by
  constructor
  · intro hc
    refine ⟨?_, hasCompanyFilter_stripCompany p, ?_⟩ <;>
      simp [«_search_employee_ids», h422, hc]
  · intro hc
    constructor <;> simp [«_search_employee_ids», h422, hc]

def c4post : Payload → Resp := fun _ => Resp.httpStatusError 422

def c4p : Payload := [("full_name", Json.str "Ada"), ("company_name", Json.str "Acme")]

/-- Witness for C4: a concrete 422 on a company-filtered payload retries
exactly once, with the filter stripped. -/
theorem spec_c4_witness :
    («_search_employee_ids» c4post c4p).2 = [c4p, stripCompany c4p]
    ∧ hasCompanyFilter (stripCompany c4p) = false
    ∧ («_search_employee_ids» c4post c4p).1 = respToResult (c4post (stripCompany c4p)) :=
  (spec_c4 c4post c4p rfl).1 (by decide)

/-- Whether an `Except` is an error. -/
def isErrE {ε α : Type} : Except ε α → Bool
  | .error _ => true
  | .ok _ => false

theorem phase1_all_fail (post : Payload → Resp) :
    ∀ (ps : List Payload) (lastError : Option HErr),
      (∀ p ∈ ps, isErrE («_search_employee_ids» post p).1 = true) →
      (ps ≠ [] ∨ lastError.isSome = true) →
      ∃ e, phase1 post ps lastError = (some e, []) := by
  intro ps
  induction ps with
  | nil =>
    intro lastError _ hne
    rcases hne with h' | h'
    · exact absurd rfl h'
    · cases lastError with
      | none => simp at h'
      | some e => exact ⟨e, rfl⟩
  | cons p ps ih =>
    intro lastError h _
    have hp := h p (List.mem_cons_self p ps)
    unfold phase1
    cases hres : («_search_employee_ids» post p).1 with
    | ok ids => rw [hres] at hp; simp [isErrE] at hp
    | error e =>
      exact ih (some e) (fun q hq => h q (List.mem_cons_of_mem p hq)) (Or.inr rfl)

/-- C5: `search_person` never lets an identifier-search failure escape: an
error outcome always carries an empty result list, and whenever every
payload attempt of the identifier search fails, the returned value is the
structured `{error, status_code, results := []}` record rather than a
raised exception. -/
theorem spec_c5 (post : Payload → Resp) (get : Json → Resp) (name : String)
    (company : Option String) (limit : Nat) :
    ((search_person post get name company limit).error.isSome = true →
      (search_person post get name company limit).results = [])
    ∧ (pyStrip name ≠ "" →
      (∀ p ∈ «_build_search_payloads» (pyStrip name) company,
        isErrE («_search_employee_ids» post p).1 = true) →
      ∃ e, (search_person post get name company limit).error = some e
        ∧ (search_person post get name company limit).status_code = statusCodeOf e
        ∧ (search_person post get name company limit).results = []) := by
  constructor
  · unfold search_person
    dsimp only
    split
    · intro h; simp at h
    · split
      · intro _; rfl
      · intro h; simp at h
      · intro h; simp at h
  · intro hnm hfail
    obtain ⟨e, he⟩ := phase1_all_fail post («_build_search_payloads» (pyStrip name) company)
      none hfail (Or.inl (by simp [«_build_search_payloads»]))
    refine ⟨e, ?_, ?_, ?_⟩ <;>
      · unfold search_person
        rw [if_neg hnm, he]

def c5post : Payload → Resp := fun _ => Resp.httpStatusError 500

def c5get : Json → Resp := fun _ => Resp.transportError

/-- Witness for C5: with every search attempt failing with status 500, the
orchestrator returns the structured error record. -/
theorem spec_c5_witness :
    ∃ e, (search_person c5post c5get "Ada" none 10).error = some e
      ∧ (search_person c5post c5get "Ada" none 10).status_code = statusCodeOf e
      ∧ (search_person c5post c5get "Ada" none 10).results = [] :=
  (spec_c5 c5post c5get "Ada" none 10).2 (by decide) (by decide)

/-- Whether a collect call succeeded. -/
def isOkResp : Resp → Bool
  | .ok _ => true
  | _ => false

/-- The body of a successful collect call. -/
def okBody : Resp → Option Json
  | .ok b => some b
  | _ => none

theorem collectLoop_eq_filterMap (get : Json → Resp) :
    ∀ ids : List Json, collectLoop get ids = ids.filterMap (fun i => okBody (get i)) := by
  intro ids
  induction ids with
  | nil => rfl
  | cons i is ih =>
    unfold collectLoop
    cases h : get i with
    | ok body => rw [List.filterMap_cons]; simp [okBody, h, ih]
    | httpStatusError c => rw [List.filterMap_cons]; simp [okBody, h, ih]
    | transportError => rw [List.filterMap_cons]; simp [okBody, h, ih]

theorem isSome_okBody (r : Resp) : (okBody r).isSome = isOkResp r := by
  cases r <;> rfl

def c6post : Payload → Resp := fun _ =>
  Resp.ok (Json.arr [Json.num 1, Json.num 2, Json.num 3, Json.num 4, Json.num 5])

def c6get : Json → Resp := fun i =>
  match i with
  | .num 3 => Resp.httpStatusError 500
  | _ => Resp.ok (Json.obj [("id", i)])

/-- C6: phase 2 fetches each identifier independently — its result list is
exactly the bodies of the successful fetches, a failed fetch merely
omitting its identifier — so five identifiers with exactly one failing
fetch yield four results; run end-to-end, a five-identifier search with one
failing collect call returns four results and no error. -/
theorem spec_c6 :
    (∀ (get : Json → Resp) (ids : List Json),
      collectLoop get ids = ids.filterMap (fun i => okBody (get i)))
    ∧ (∀ (get : Json → Resp) (ids : List Json),
      ids.length = 5 → ids.countP (fun i => !isOkResp (get i)) = 1 →
      (collectLoop get ids).length = 4)
    ∧ (search_person c6post c6get "Ada Lovelace" none 10).error = none
    ∧ (search_person c6post c6get "Ada Lovelace" none 10).results.length = 4 := by
  refine ⟨collectLoop_eq_filterMap, ?_, by rfl, by rfl⟩
  intro get ids hlen hfail
  rw [collectLoop_eq_filterMap, List.length_filterMap_eq_countP]
  have hsplit := List.length_eq_countP_add_countP (l := ids)
    (p := fun i => (okBody (get i)).isSome)
  have hco : ids.countP (fun i => !(okBody (get i)).isSome) = 1 := by
    rw [← hfail]
    apply List.countP_congr
    intro i _
    rw [isSome_okBody]
  rw [hlen] at hsplit
  have : ids.countP (fun a => ¬(okBody (get a)).isSome = true) =
      ids.countP (fun i => !(okBody (get i)).isSome) := by
    apply List.countP_congr
    intro i _
    simp
  omega

/-- Witness for C6 at concrete identifiers and a concrete failing fetch. -/
theorem spec_c6_witness :
    (collectLoop c6get [Json.num 1, Json.num 2, Json.num 3, Json.num 4, Json.num 5]).length = 4 :=
  spec_c6.2.1 c6get [Json.num 1, Json.num 2, Json.num 3, Json.num 4, Json.num 5]
    (by decide) (by decide)

/-! ## The date-parser and field-extractor claims -/

/-- C7: `_parse_date` parses `"2021"` to January 1 2021, `"2021-07"` to
July 1 2021, `"2021-07-15Z"` to July 15 2021 (one trailing `Z` stripped),
yields nothing for an unparseable string such as `"not-a-date"` (being a
total function into `Option`, it cannot raise), and on every non-empty
string it is the chain trying `%Y-%m-%d`, `%Y-%m`, `%Y`, then the
`fromisoformat` fallback, in that order, over the cleaned string. -/
theorem spec_c7 :
    «_parse_date» (Json.str "2021") = some ⟨2021, 1, 1⟩
    ∧ «_parse_date» (Json.str "2021-07") = some ⟨2021, 7, 1⟩
    ∧ «_parse_date» (Json.str "2021-07-15Z") = some ⟨2021, 7, 15⟩
    ∧ «_parse_date» (Json.str "not-a-date") = none
    ∧ ∀ s : String, s ≠ "" →
        «_parse_date» (Json.str s) =
          (((parseFmtYMD (cleanDate s)).orElse fun _ => parseFmtYM (cleanDate s)).orElse
            fun _ => parseFmtY (cleanDate s)).orElse fun _ => pyFromIso (cleanDate s) := by
  refine ⟨by decide, by decide, by decide, by decide, ?_⟩
  intro s hs
  have ht : truthy (Json.str s) = true := by simp [truthy, hs]
  cases h1 : parseFmtYMD (cleanDate s) <;>
    cases h2 : parseFmtYM (cleanDate s) <;>
    cases h3 : parseFmtY (cleanDate s) <;>
    simp [«_parse_date», ht, h1, h2, h3, Option.orElse]

/-- Witness for C7's format-order statement at a concrete string. -/
theorem spec_c7_witness :
    «_parse_date» (Json.str "2021-07-15Z") =
      (((parseFmtYMD (cleanDate "2021-07-15Z")).orElse
          fun _ => parseFmtYM (cleanDate "2021-07-15Z")).orElse
        fun _ => parseFmtY (cleanDate "2021-07-15Z")).orElse
        fun _ => pyFromIso (cleanDate "2021-07-15Z") :=
  spec_c7.2.2.2.2 "2021-07-15Z" (by decide)

def c8raw : Json :=
  Json.obj [("results", Json.arr [Json.obj [("experience", Json.arr [Json.str "Acme engineer"])]])]

/-- C8 (code bug): the claim says every extraction treats wrong-typed
vendor fields as "no value" and never faults, but `extract_profiles`
raises `AttributeError` when the first experience entry is not a mapping
(`latest_exp.get` on a string, line 139), and `_extract_linkedin_url`
raises `AttributeError` when the chosen URL candidate is a truthy
non-string (`url.startswith` on an int, line 259). -/
theorem spec_c8_bug :
    (∀ now, extract_profiles now c8raw =
      Except.error "AttributeError: object has no attribute get")
    ∧ «_extract_linkedin_url» [("profile_url", Json.num 5)] =
      Except.error "AttributeError: object has no attribute startswith" :=
  ⟨fun _ => rfl, rfl⟩

/-- A vendor field value that cannot make the URL extraction fault: a
string, or null/absent. -/
def strOrNull : Json → Bool
  | .str _ => true
  | .null => true
  | _ => false

theorem strOrNull_cases {v : Json} (h : strOrNull v = true) :
    v = Json.null ∨ ∃ s, v = Json.str s := by
  cases v <;> simp_all [strOrNull]

/-- The string a candidate field contributes (null and absent read as
empty). -/
def strVal : Json → String
  | .str s => s
  | _ => ""

/-- The claim's "first non-empty wins" selection. -/
def firstNonEmpty : List String → String
  | [] => ""
  | s :: rest => if s ≠ "" then s else firstNonEmpty rest

/-- The claim's normalization: empty stays empty; a value lacking the
web-protocol prefix gets `https://` prepended after its leading slashes are
stripped. -/
def normalizeUrl (s : String) : String :=
  if s = "" then "" else if startsHttp s.data then s else prependHttps s

/-- C9: over profiles whose `profile_url`, `linkedin_url` and `url` fields
are strings or null/absent, `_extract_linkedin_url` returns the first
non-empty candidate in that order, normalized by prepending `https://`
(after stripping leading slashes) when the web-protocol prefix is missing,
and the empty string when no candidate is non-empty; in particular
`"linkedin.com/in/x"` becomes `"https://linkedin.com/in/x"`. -/
theorem spec_c9 :
    (∀ fs : List (String × Json),
      strOrNull (dictGet fs "profile_url") = true →
      strOrNull (dictGet fs "linkedin_url") = true →
      strOrNull (dictGet fs "url") = true →
      «_extract_linkedin_url» fs = Except.ok (Json.str (normalizeUrl
        (firstNonEmpty [strVal (dictGet fs "profile_url"),
                        strVal (dictGet fs "linkedin_url"),
                        strVal (dictGet fs "url")]))))
    ∧ «_extract_linkedin_url» [("linkedin_url", Json.str "linkedin.com/in/x")] =
        Except.ok (Json.str "https://linkedin.com/in/x")
    ∧ «_extract_linkedin_url» [] = Except.ok (Json.str "") := by
  refine ⟨?_, by rfl, by rfl⟩
  intro fs h1 h2 h3
  unfold «_extract_linkedin_url»
  generalize hA : dictGet fs "profile_url" = a at h1 ⊢
  generalize hB : dictGet fs "linkedin_url" = b at h2 ⊢
  generalize hC : dictGet fs "url" = c at h3 ⊢
  rcases strOrNull_cases h1 with rfl | ⟨s1, rfl⟩ <;>
    rcases strOrNull_cases h2 with rfl | ⟨s2, rfl⟩ <;>
    rcases strOrNull_cases h3 with rfl | ⟨s3, rfl⟩
  · simp [jor, truthy, strVal, firstNonEmpty, normalizeUrl]
  · by_cases hs3 : s3 = "" <;>
      simp [jor, truthy, strVal, firstNonEmpty, normalizeUrl, hs3]
  · by_cases hs2 : s2 = "" <;>
      simp [jor, truthy, strVal, firstNonEmpty, normalizeUrl, hs2]
  · by_cases hs2 : s2 = "" <;> by_cases hs3 : s3 = "" <;>
      simp [jor, truthy, strVal, firstNonEmpty, normalizeUrl, hs2, hs3]
  · by_cases hs1 : s1 = "" <;>
      simp [jor, truthy, strVal, firstNonEmpty, normalizeUrl, hs1]
  · by_cases hs1 : s1 = "" <;> by_cases hs3 : s3 = "" <;>
      simp [jor, truthy, strVal, firstNonEmpty, normalizeUrl, hs1, hs3]
  · by_cases hs1 : s1 = "" <;> by_cases hs2 : s2 = "" <;>
      simp [jor, truthy, strVal, firstNonEmpty, normalizeUrl, hs1, hs2]
  · by_cases hs1 : s1 = "" <;> by_cases hs2 : s2 = "" <;> by_cases hs3 : s3 = "" <;>
      simp [jor, truthy, strVal, firstNonEmpty, normalizeUrl, hs1, hs2, hs3]

/-- Witness for C9's general statement at a concrete profile. -/
theorem spec_c9_witness :
    «_extract_linkedin_url» [("linkedin_url", Json.str "linkedin.com/in/x")] =
      Except.ok (Json.str (normalizeUrl
        (firstNonEmpty
          [strVal (dictGet [("linkedin_url", Json.str "linkedin.com/in/x")] "profile_url"),
           strVal (dictGet [("linkedin_url", Json.str "linkedin.com/in/x")] "linkedin_url"),
           strVal (dictGet [("linkedin_url", Json.str "linkedin.com/in/x")] "url")]))) :=
  spec_c9.1 [("linkedin_url", Json.str "linkedin.com/in/x")] (by decide) (by decide) (by decide)

end PeopleParse
